import Mathlib

/-!
Verification of the time-synchronization core of better_clock.cpp.

The development shallowly embeds, from the source:
- the UDP response handler ntpcb_recv (packet validation and timestamp decode),
- the request builder ntp_request (48-byte client packet),
- the libc civil-time conversions used by ntp_apply_timezone and rtc_add_hours
  (gmtime and mktime modelled by their documented proleptic-Gregorian UTC
  semantics, since newlib is an external library; the civil conversions are
  given by the standard days-from-civil and civil-from-days algorithms, whose
  mutual inverse properties are proved below),
- the poll-driven synchronization routine checktime together with the
  asynchronous completion callbacks ntpcb_dns and ntpcb_recv, as a transition
  system over the static state kept by the program.

Definitions come first, then the theorems.
-/

set_option maxHeartbeats 1600000
set_option maxRecDepth 4096

/-- A byte as stored in an lwIP pbuf payload. -/
abbrev Byte := Fin 256

/-- Constant NTP_PORT from the source. -/
def NTP_PORT : Nat := 123

/-- Constant NTP_PACKET_LEN from the source. -/
def NTP_PACKET_LEN : Nat := 48

/-- Constant NTP_EPOCH_OFFSET from the source (seconds from 1900-01-01 to
1970-01-01). -/
def NTP_EPOCH_OFFSET : Int := 2208988800

/-- Model of pbuf_get_at: reads the byte at a given offset of a packet
payload; lwIP returns 0 when the offset is outside the buffer. -/
def pbuf_get_at (bytes : List Byte) (off : Nat) : Nat :=
  (bytes.getD off 0).val

/-- Model of the pbuf_copy_partial call in ntpcb_recv: copies len bytes
starting at offset off (as many as are available) out of the payload. -/
def pbuf_copy_from (bytes : List Byte) (len off : Nat) : List Nat :=
  ((bytes.drop off).take len).map Fin.val

/-- The static state kept by better_clock.cpp for one synchronization
session: the flags l_active and l_connecting of checktime, and the fields of
the static ntpstate_t object (server address, UDP pcb, active_query flag and
decoded time).  The socket field is none when no pcb exists, some none for a
pcb that is not yet bound, and some (some p) for a pcb bound to local port p
(lwIP binds a pcb on its first udp_sendto, taking a fresh ephemeral port).
nextPort models the ephemeral port counter of lwIP (monotone model of its
fresh-port search), prevPorts collects the ports of pcbs removed by
udp_remove in earlier cycles, cycleId numbers the cycles (it grows at each
re-initialisation), dnsPending records that a dns_gethostbyname callback is
outstanding, dnsCycle the cycle that issued it, and resolved whether name
resolution has delivered an address in the current cycle.  The last five
fields are observers used to state properties; no transition reads them. -/
structure ClockState where
  active : Bool
  connecting : Bool
  socket : Option (Option Nat)
  activeQuery : Bool
  server : Option Nat
  time : Nat
  nextPort : Nat
  prevPorts : List Nat
  cycleId : Nat
  dnsPending : Bool
  dnsCycle : Nat
  resolved : Bool
deriving DecidableEq, Repr

/-- Model of ntpcb_recv from better_clock.cpp: validates an incoming datagram
and, when it looks like an NTP server answer (source port 123, exactly 48
bytes, low three bits of byte 0 equal to 4, nonzero stratum byte), decodes
the 32-bit big-endian value at offset 40 into the time field.  The source
also receives the sender address p_addr but never reads it, so the addr
argument is unused here exactly as in the source.  The final reduction
modulo 2 to the 32 models the assignment to the uint32_t field. -/
def ntpcb_recv (st : ClockState) (addr : Nat) (port : Nat) (bytes : List Byte) :
    ClockState :=
  let l_mode := Nat.land (pbuf_get_at bytes 0) 0x07
  let l_stratum := pbuf_get_at bytes 1
  if port = NTP_PORT ∧ bytes.length = NTP_PACKET_LEN ∧ l_mode = 0x04 ∧ l_stratum ≠ 0 then
    let nt := pbuf_copy_from bytes 4 40
    { st with time :=
        (nt.getD 0 0 <<< 24 ||| nt.getD 1 0 <<< 16 ||| nt.getD 2 0 <<< 8 |||
          nt.getD 3 0) % 2 ^ 32 }
  else st

/-- Start day-of-era (March-based) of a year-of-era: 365 y + leap days. -/
def startI (y : Int) : Int := 365 * y + y / 4 - y / 100

/-- Day-of-era accumulator of the civil_from_days algorithm. -/
def fAcc (v : Int) : Int := v - v / 1460 + v / 36524 - v / 146096

/-- The largest March-based day-of-year of a year-of-era (364, or 365 when
the civil year that contains its February is a leap year). -/
def maxDoyI (y : Int) : Int :=
  if ((y + 1) % 4 = 0 ∧ (y + 1) % 100 ≠ 0) ∨ y = 399 then 365 else 364

/-- Civil (proleptic Gregorian) date triple. -/
structure Civil where
  y : Int
  m : Int
  d : Int
deriving DecidableEq, Repr

/-- Era of the shifted day number, in the civil_from_days algorithm. -/
def eraOf (z : Int) : Int := (z + 719468) / 146097

/-- Day-of-era in the civil_from_days algorithm. -/
def doeOf (z : Int) : Int := z + 719468 - eraOf z * 146097

/-- Year-of-era recovered by the accumulator formula. -/
def yoeOf (z : Int) : Int := fAcc (doeOf z) / 365

/-- March-based day-of-year. -/
def doyOf (z : Int) : Int := doeOf z - startI (yoeOf z)

/-- March-based month index (0 = March .. 11 = February). -/
def mpOf (z : Int) : Int := (5 * doyOf z + 2) / 153

/-- Civil month (1..12). -/
def monthOf (z : Int) : Int := mpOf z + (if mpOf z < 10 then 3 else -9)

/-- Civil day of month (1..31). -/
def domOf (z : Int) : Int := doyOf z - (153 * mpOf z + 2) / 5 + 1

/-- Civil year. -/
def yearOf (z : Int) : Int := yoeOf z + eraOf z * 400 + (if monthOf z ≤ 2 then 1 else 0)

/-- The standard civil_from_days algorithm: converts days since 1970-01-01
to a proleptic Gregorian date (the reference semantics for newlib gmtime). -/
def civilFromDays (z : Int) : Civil := ⟨yearOf z, monthOf z, domOf z⟩

/-- The standard days_from_civil algorithm: days since 1970-01-01 of a
proleptic Gregorian date with month in 1..12 (reference semantics for the
day composition inside newlib mktime). -/
def daysFromCivil (y m d : Int) : Int :=
  let yy := y - (if m ≤ 2 then 1 else 0)
  let era := yy / 400
  let yoe := yy - era * 400
  let doy := (153 * (m + (if 2 < m then -3 else 9)) + 2) / 5 + d - 1
  era * 146097 + (startI yoe + doy) - 719468

/-- Number of days of month m (1..12) of year y, proleptic Gregorian. -/
def daysInMonth (y m : Int) : Int :=
  if m = 2 then (if (y % 4 = 0 ∧ y % 100 ≠ 0) ∨ y % 400 = 0 then 29 else 28)
  else if m = 4 ∨ m = 6 ∨ m = 9 ∨ m = 11 then 30
  else 31

/-- The broken-down time structure of the C library. -/
structure Tm where
  tm_year : Int
  tm_mon : Int
  tm_mday : Int
  tm_wday : Int
  tm_hour : Int
  tm_min : Int
  tm_sec : Int
deriving DecidableEq, Repr

/-- Model of newlib gmtime with the process timezone unset (UTC): decomposes
seconds since 1970-01-01 into a proleptic Gregorian broken-down time;
tm_year counts years since 1900, tm_mon is 0-based, tm_wday has Sunday = 0
(1970-01-01 was a Thursday, weekday 4). -/
def gmtime (t : Int) : Tm :=
  ⟨(civilFromDays (t / 86400)).y - 1900,
   (civilFromDays (t / 86400)).m - 1,
   (civilFromDays (t / 86400)).d,
   (t / 86400 + 4) % 7,
   t % 86400 / 3600,
   t % 86400 % 3600 / 60,
   t % 86400 % 60⟩

/-- Model of newlib mktime with the process timezone unset (UTC): composes a
broken-down time into seconds since 1970-01-01, normalizing an out-of-range
month into the year and out-of-range days/hours/minutes/seconds linearly,
exactly as the newlib normalization loops do. -/
def mktime (tm : Tm) : Int :=
  86400 * (daysFromCivil (1900 + tm.tm_year + tm.tm_mon / 12) (tm.tm_mon % 12 + 1) 1 +
    (tm.tm_mday - 1)) + 3600 * tm.tm_hour + 60 * tm.tm_min + tm.tm_sec

/-- The RP2040 SDK datetime record (datetime_t). -/
structure Datetime where
  year : Int
  month : Int
  day : Int
  dotw : Int
  hour : Int
  min : Int
  sec : Int
deriving DecidableEq, Repr

/-- The field-by-field copy from a datetime_t into a struct tm performed by
rtc_add_hours (the source applies no range adjustment). -/
def tmOfDt (w : Datetime) : Tm := ⟨w.year, w.month, w.day, w.dotw, w.hour, w.min, w.sec⟩

/-- The field-by-field copy from a struct tm into the static datetime_t
performed by ntp_apply_timezone and rtc_add_hours (again unadjusted: the
year field receives tm_year, years since 1900, and the month field receives
tm_mon, 0-based). -/
def dtOfTm (g : Tm) : Datetime :=
  ⟨g.tm_year, g.tm_mon, g.tm_mday, g.tm_wday, g.tm_hour, g.tm_min, g.tm_sec⟩

/-- Model of ntp_apply_timezone from better_clock.cpp: subtracts the 1900
epoch offset from the raw 32-bit timestamp, adds 3600 times the timezone,
decomposes with gmtime and copies the tm fields unadjusted into the returned
datetime record. -/
def ntp_apply_timezone (p_ntptime : Nat) (p_timezone : Int) : Datetime :=
  dtOfTm (gmtime ((p_ntptime : Int) - NTP_EPOCH_OFFSET + 3600 * p_timezone))

/-- Model of rtc_add_hours from better_clock.cpp: copies the datetime into a
struct tm unadjusted, composes with mktime, adds 3600 times the offset,
decomposes with gmtime and copies the fields back unadjusted. -/
def rtc_add_hours (p_rtctime : Datetime) (p_offset : Int) : Datetime :=
  dtOfTm (gmtime (mktime (tmOfDt p_rtctime) + 3600 * p_offset))

/-- Modelled from the spec: timestampToWallClock decomposes the shifted
instant into genuine proleptic Gregorian calendar fields (actual year,
month 1..12, day, weekday with Sunday 0, hour, minute, second); the spec
names this operation but the code implements it only through the unadjusted
field copies of ntp_apply_timezone. -/
def timestampToWallClock (t : Nat) (tz : Int) : Datetime :=
  ⟨(civilFromDays (((t : Int) - 2208988800 + 3600 * tz) / 86400)).y,
   (civilFromDays (((t : Int) - 2208988800 + 3600 * tz) / 86400)).m,
   (civilFromDays (((t : Int) - 2208988800 + 3600 * tz) / 86400)).d,
   (((t : Int) - 2208988800 + 3600 * tz) / 86400 + 4) % 7,
   ((t : Int) - 2208988800 + 3600 * tz) % 86400 / 3600,
   ((t : Int) - 2208988800 + 3600 * tz) % 86400 % 3600 / 60,
   ((t : Int) - 2208988800 + 3600 * tz) % 86400 % 60⟩

/-- A packet as handed to udp_sendto: destination address and port, and the
payload bytes. -/
structure SentPacket where
  dest : Option Nat
  destPort : Nat
  payload : List Nat
deriving DecidableEq, Repr

/-- Model of ntp_request from better_clock.cpp.  The allocOk input is the
outcome of pbuf_alloc; the source does not check that outcome and
immediately dereferences l_buffer->payload, so a failed allocation is a null
dereference (undefined behavior), modelled by the none result with no packet
sent and no error signalled.  On success the payload is zeroed with memset,
byte 0 is set to 0x1b and the single resulting packet is sent with
udp_sendto to the server address at port NTP_PORT. -/
def ntp_request (allocOk : Bool) (server : Option Nat) : Option (List SentPacket) :=
  if allocOk then
    some [⟨server, NTP_PORT, (List.replicate NTP_PACKET_LEN 0).set 0 0x1b⟩]
  else none

/-- The link states reported by cyw43_tcpip_link_status. -/
inductive LinkStatus
  | down
  | joining
  | noip
  | up
  | fail
  | badauth
  | nonet
deriving DecidableEq, Repr

/-- The hard-failure test of checktime: CYW43_LINK_FAIL, CYW43_LINK_BADAUTH
or CYW43_LINK_NONET. -/
def linkFailed : LinkStatus → Bool
  | .fail => true
  | .badauth => true
  | .nonet => true
  | _ => false

/-- Immediate outcome of the dns_gethostbyname call: ERR_OK with a cached
address already written to the result (the source then sends directly),
ERR_INPROGRESS with the callback registered, or any other error. -/
inductive DnsOutcome
  | ok (addr : Nat)
  | inprogress
  | err
deriving DecidableEq, Repr

/-- An incoming datagram: sender address and port, destination port, and
payload bytes. -/
structure Packet where
  srcAddr : Nat
  srcPort : Nat
  dstPort : Nat
  bytes : List Byte
deriving DecidableEq, Repr

/-- The zero-initialised static state at program start.  49152 is the lwIP
ephemeral port range start. -/
def initState : ClockState :=
  ⟨false, false, none, false, none, 0, 49152, [], 0, false, 0, false⟩

/-- The udp_sendto call inside ntp_request as invoked by the state machine:
lwIP binds an unbound pcb to the next ephemeral port on its first send;
sending on a null pcb dereferences it (crash, modelled none).  Packet
buffer allocation is taken as succeeding here; its failure is the subject
of the ntp_request lemmas. -/
def sendRequest (s : ClockState) : Option ClockState :=
  match s.socket with
  | none => none
  | some (some _) => some s
  | some none => some { s with socket := some (some s.nextPort), nextPort := s.nextPort + 1 }

/-- Model of ntpcb_dns from better_clock.cpp: when an address was resolved
it is copied into the static state and the request is sent at once;
otherwise (DNS failure) the active_query flag is cleared.  The
dnsPending/resolved observers record the delivery. -/
def ntpcb_dns (s : ClockState) (addr : Option Nat) : Option ClockState :=
  match addr with
  | some a => sendRequest { s with server := some a, dnsPending := false, resolved := true }
  | none => some { s with activeQuery := false, dnsPending := false }

/-- The re-initialisation block at the top of checktime (the branch taken
when l_active is false): start connecting, remove the pcb if one exists
(udp_remove, its port joining prevPorts), clear active_query and time.  The
cycleId observer counts the cycle starts. -/
def cycleInit (s : ClockState) : ClockState :=
  if s.active then s
  else
    { s with active := true, connecting := true,
             prevPorts := match s.socket with
               | some (some p) => p :: s.prevPorts
               | _ => s.prevPorts,
             socket := none, activeQuery := false, time := 0,
             cycleId := s.cycleId + 1, resolved := false }

/-- The DNS-issuing else-branch of checktime: call dns_gethostbyname, set
active_query, then on ERR_OK send at once, on ERR_INPROGRESS wait for the
callback, and on any other error clear active_query and return false. -/
def dnsPhase (s : ClockState) (dns : DnsOutcome) : Option (ClockState × Bool) :=
  match dns with
  | .ok a =>
    match sendRequest { s with server := some a, activeQuery := true, resolved := true } with
    | none => none
    | some s2 => some (s2, false)
  | .inprogress =>
    some ({ s with activeQuery := true, dnsPending := true, dnsCycle := s.cycleId }, false)
  | .err => some ({ s with activeQuery := false }, false)

/-- The active-query branch of checktime: when a query is outstanding and a
time has been recorded, set the RTC, tear the connectivity down
(cyw43_arch_deinit; the socket is not removed here) and return true;
when no time is recorded yet just return false. -/
def queryPhase (s : ClockState) (dns : DnsOutcome) : Option (ClockState × Bool) :=
  if s.activeQuery then
    if 0 < s.time then some ({ s with active := false, connecting := false }, true)
    else some (s, false)
  else dnsPhase s dns

/-- The socket-ensuring step of checktime: create the pcb with
udp_new_ip_type when absent (returning false when that fails) and register
ntpcb_recv on it, then continue. -/
def socketPhase (s : ClockState) (sockOk : Bool) (dns : DnsOutcome) : Option (ClockState × Bool) :=
  match s.socket with
  | none =>
    if sockOk then queryPhase { s with socket := some none } dns
    else some (s, false)
  | some _ => queryPhase s dns

/-- Model of checktime from better_clock.cpp, one non-blocking poll.  The
inputs are the environment answers for this call: the link status read from
the driver, whether udp_new_ip_type succeeds, and the immediate outcome of
dns_gethostbyname.  The Bool is the return value of checktime; none models
a crash. -/
def checktime (s0 : ClockState) (link : LinkStatus) (sockOk : Bool) (dns : DnsOutcome) :
    Option (ClockState × Bool) :=
  let s := cycleInit s0
  if s.connecting ∧ linkFailed link then
    some ({ s with active := false, connecting := false }, false)
  else
    let s1 := if s.connecting ∧ link = LinkStatus.up then { s with connecting := false } else s
    if s1.connecting then some (s1, false)
    else socketPhase s1 sockOk dns

/-- Delivery of an incoming datagram to the registered handler. -/
def udpDeliver (s : ClockState) (pkt : Packet) : ClockState :=
  ntpcb_recv s pkt.srcAddr pkt.srcPort pkt.bytes

/-- The states reachable by the program: the initial zeroed statics, any
poll of checktime, delivery of an outstanding DNS completion (lwIP holds at
most one and it fires exactly once), and delivery of a datagram, which
lwIP hands to the pcb only when the pcb is bound to the destination port. -/
inductive Reach : ClockState → Prop
  | init : Reach initState
  | poll {s s1 : ClockState} {r : Bool} (link : LinkStatus) (sockOk : Bool) (dns : DnsOutcome) :
      Reach s → checktime s link sockOk dns = some (s1, r) → Reach s1
  | dnsAnswer {s s1 : ClockState} (addr : Option Nat) :
      Reach s → s.dnsPending = true → ntpcb_dns s addr = some s1 → Reach s1
  | datagram {s : ClockState} (pkt : Packet) :
      Reach s → s.socket = some (some pkt.dstPort) → Reach (udpDeliver s pkt)

/-- The inductive invariant of the synchronization session.  Clause 1: an
outstanding DNS completion always belongs to the current cycle, which is
live, connected, mid-query, with no recorded time and an unbound socket.
Clause 2: a bound socket implies the query is active, resolution delivered
an address this cycle, the server address is set, and the bound port is
fresh (never a previous cycle port).  Clause 3: previous cycle ports are
below the port counter.  Clause 4: while connecting there is no socket, no
query, no time and no pending DNS.  Clause 5: without an active query no
time is recorded. -/
def SessionInv (s : ClockState) : Prop :=
  (s.dnsPending = true →
    s.active = true ∧ s.connecting = false ∧ s.activeQuery = true ∧ s.time = 0 ∧
    s.socket = some none ∧ s.dnsCycle = s.cycleId) ∧
  (∀ p : Nat, s.socket = some (some p) →
    s.activeQuery = true ∧ s.resolved = true ∧ s.server ≠ none ∧
    p < s.nextPort ∧ p ∉ s.prevPorts) ∧
  (∀ q ∈ s.prevPorts, q < s.nextPort) ∧
  (s.connecting = true →
    s.socket = none ∧ s.activeQuery = false ∧ s.time = 0 ∧ s.dnsPending = false) ∧
  (s.activeQuery = false → s.time = 0)

/-! ## Theorems -/

/-- Bitwise or of a left shift with a small addend is addition. -/
theorem shiftLeft_lor_eq_add (a b i : Nat) (hb : b < 2 ^ i) :
    a <<< i ||| b = a <<< i + b := by
  apply Nat.eq_of_testBit_eq
  intro j
  rw [Nat.testBit_or]
  rcases Nat.lt_or_ge j i with hj | hj
  · have e1 : (a <<< i).testBit j = false := by
      simp [Nat.testBit_shiftLeft, Nat.not_le.mpr hj]
    have h2 : (2:Nat) ^ j * (2 * 2 ^ (i - j - 1)) = 2 ^ i := by
      have h3 : (2:Nat) ^ j * (2 * 2 ^ (i - j - 1)) = 2 ^ (j + 1 + (i - j - 1)) := by
        rw [Nat.pow_add, Nat.pow_add, Nat.pow_one]
        ring
      rw [h3]
      congr 1
      omega
    have hsplit : a <<< i = 2 ^ j * (2 * (a * 2 ^ (i - j - 1))) := by
      rw [Nat.shiftLeft_eq, ← h2]
      ring
    have e2 : (a <<< i + b).testBit j = b.testBit j := by
      rw [Nat.testBit_to_div_mod, Nat.testBit_to_div_mod, hsplit,
        Nat.mul_add_div (Nat.two_pow_pos j)]
      have : (2 * (a * 2 ^ (i - j - 1)) + b / 2 ^ j) % 2 = b / 2 ^ j % 2 := by
        omega
      rw [this]
    rw [e1, e2, Bool.false_or]
  · have hbj : b < 2 ^ j := lt_of_lt_of_le hb (Nat.pow_le_pow_right (by omega) hj)
    have e1 : b.testBit j = false := Nat.testBit_lt_two_pow hbj
    have e2 : (a <<< i + b).testBit j = a.testBit (j - i) := by
      rw [Nat.testBit_to_div_mod, Nat.testBit_to_div_mod, Nat.shiftLeft_eq]
      have hpow : 2 ^ j = 2 ^ i * 2 ^ (j - i) := by
        rw [← Nat.pow_add]
        congr 1
        omega
      rw [hpow, ← Nat.div_div_eq_div_mul, Nat.mul_comm a,
        Nat.mul_add_div (Nat.two_pow_pos i), Nat.div_eq_of_lt hb, Nat.add_zero]
    have e3 : (a <<< i).testBit j = a.testBit (j - i) := by
      simp [Nat.testBit_shiftLeft, hj]
    rw [e1, e2, e3, Bool.or_false]

/-- The big-endian decode expression of ntpcb_recv, as plain arithmetic. -/
theorem decode_eq (b0 b1 b2 b3 : Byte) :
    (b0.val <<< 24 ||| b1.val <<< 16 ||| b2.val <<< 8 ||| b3.val) % 2 ^ 32 =
      b0.val * 16777216 + b1.val * 65536 + b2.val * 256 + b3.val := by
  have h0 := b0.isLt
  have h1 := b1.isLt
  have h2 := b2.isLt
  have h3 := b3.isLt
  have e1 : b0.val <<< 24 ||| b1.val <<< 16 = (b0.val * 256 + b1.val) <<< 16 := by
    rw [shiftLeft_lor_eq_add _ _ _ (by rw [Nat.shiftLeft_eq]; omega)]
    rw [Nat.shiftLeft_eq, Nat.shiftLeft_eq, Nat.shiftLeft_eq]
    ring
  have e2 : (b0.val * 256 + b1.val) <<< 16 ||| b2.val <<< 8 =
      ((b0.val * 256 + b1.val) * 256 + b2.val) <<< 8 := by
    rw [shiftLeft_lor_eq_add _ _ _ (by rw [Nat.shiftLeft_eq]; omega)]
    rw [Nat.shiftLeft_eq, Nat.shiftLeft_eq, Nat.shiftLeft_eq]
    ring
  have e3 : ((b0.val * 256 + b1.val) * 256 + b2.val) <<< 8 ||| b3.val =
      ((b0.val * 256 + b1.val) * 256 + b2.val) * 256 + b3.val := by
    rw [shiftLeft_lor_eq_add _ _ _ (by omega), Nat.shiftLeft_eq]
  rw [e1, e2, e3]
  have hlt : ((b0.val * 256 + b1.val) * 256 + b2.val) * 256 + b3.val < 2 ^ 32 := by
    omega
  rw [Nat.mod_eq_of_lt hlt]
  ring

/-- Reading entry i of the four copied timestamp bytes is reading byte 40+i
of the packet. -/
theorem copy_from_getD (bytes : List Byte) (i : Nat) (hi : i < 4) :
    (pbuf_copy_from bytes 4 40).getD i 0 = (bytes.getD (40 + i) 0).val := by
  unfold pbuf_copy_from
  rw [List.getD_eq_getElem?_getD, List.getD_eq_getElem?_getD,
    List.getElem?_map, List.getElem?_take_of_lt hi, List.getElem?_drop]
  cases bytes[40 + i]? with
  | none => rfl
  | some x => rfl

/-- ntpcb_recv writes at most the time field. -/
theorem ntpcb_recv_eq (st : ClockState) (addr port : Nat) (bytes : List Byte) :
    ntpcb_recv st addr port bytes =
      { st with time := (ntpcb_recv st addr port bytes).time } := by
  unfold ntpcb_recv
  dsimp only
  split
  · rfl
  · rfl

/-- Claim C1: for every received datagram the handler records a decoded
timestamp exactly when the source port is 123, the total length is exactly
48 bytes, the low 3 bits of byte 0 are 0b100 and the stratum byte is
nonzero; on acceptance the recorded value is the 32-bit big-endian integer
at byte offset 40, and any other packet leaves the whole session state
unchanged. -/
theorem claim_C1_response_validation (st : ClockState) (addr port : Nat)
    (bytes : List Byte) :
    (ntpcb_recv st addr port bytes).time =
      (if port = 123 ∧ bytes.length = 48 ∧ (bytes.getD 0 0).val % 8 = 4 ∧
          (bytes.getD 1 0).val ≠ 0 then
        (bytes.getD 40 0).val * 16777216 + (bytes.getD 41 0).val * 65536 +
          (bytes.getD 42 0).val * 256 + (bytes.getD 43 0).val
      else st.time) ∧
    ntpcb_recv st addr port bytes =
      { st with time := (ntpcb_recv st addr port bytes).time } := by
  have land_seven : ∀ b : Byte, Nat.land b.val 7 = b.val % 8 := by decide
  have hiff : (port = NTP_PORT ∧ bytes.length = NTP_PACKET_LEN ∧
      Nat.land (pbuf_get_at bytes 0) 0x07 = 0x04 ∧ pbuf_get_at bytes 1 ≠ 0) ↔
      (port = 123 ∧ bytes.length = 48 ∧ (bytes.getD 0 0).val % 8 = 4 ∧
        (bytes.getD 1 0).val ≠ 0) := by
    unfold pbuf_get_at NTP_PORT NTP_PACKET_LEN
    rw [land_seven]
  refine ⟨?_, ntpcb_recv_eq st addr port bytes⟩
  by_cases h : port = 123 ∧ bytes.length = 48 ∧ (bytes.getD 0 0).val % 8 = 4 ∧
      (bytes.getD 1 0).val ≠ 0
  · unfold ntpcb_recv
    rw [if_pos (hiff.mpr h), if_pos h]
    have c0 : (pbuf_copy_from bytes 4 40).getD 0 0 = (bytes.getD 40 0).val :=
      copy_from_getD bytes 0 (by omega)
    have c1 : (pbuf_copy_from bytes 4 40).getD 1 0 = (bytes.getD 41 0).val :=
      copy_from_getD bytes 1 (by omega)
    have c2 : (pbuf_copy_from bytes 4 40).getD 2 0 = (bytes.getD 42 0).val :=
      copy_from_getD bytes 2 (by omega)
    have c3 : (pbuf_copy_from bytes 4 40).getD 3 0 = (bytes.getD 43 0).val :=
      copy_from_getD bytes 3 (by omega)
    dsimp only
    rw [c0, c1, c2, c3]
    exact decode_eq (bytes.getD 40 0) (bytes.getD 41 0) (bytes.getD 42 0)
      (bytes.getD 43 0)
  · unfold ntpcb_recv
    rw [if_neg (fun hc => h (hiff.mp hc)), if_neg h]

/-- Claim C10: the handler ignores the sender network address entirely, so
two packets differing only in source address have the same effect on the
session (any host can set the timestamp with a well-formed packet). -/
theorem claim_C10_sender_address_ignored (st : ClockState) (a1 a2 port : Nat)
    (bytes : List Byte) :
    ntpcb_recv st a1 port bytes = ntpcb_recv st a2 port bytes := rfl
theorem maxDoyI_bounds (y : Int) : 364 ≤ maxDoyI y ∧ maxDoyI y ≤ 365 := by
  unfold maxDoyI
  split <;> omega

theorem fAcc_step (v : Int) (h1 : 0 ≤ v) (h2 : v ≤ 146095) : fAcc v ≤ fAcc (v + 1) := by
  unfold fAcc
  omega

theorem fAcc_mono_aux (n : Nat) : ∀ a : Int, 0 ≤ a → a + n ≤ 146096 →
    fAcc a ≤ fAcc (a + n) := by
  induction n with
  | zero => intro a _ _; simp
  | succ k ih =>
    intro a ha hk
    have h1 : fAcc a ≤ fAcc (a + k) := ih a ha (by omega)
    have h2 : fAcc (a + k) ≤ fAcc (a + k + 1) := fAcc_step _ (by omega) (by omega)
    have h3 : a + (k + 1 : Nat) = a + k + 1 := by push_cast; ring
    rw [h3]
    omega

theorem fAcc_mono (a b : Int) (ha : 0 ≤ a) (hab : a ≤ b) (hb : b ≤ 146096) :
    fAcc a ≤ fAcc b := by
  have h : b = a + ((b - a).toNat : Int) := by omega
  rw [h]
  exact fAcc_mono_aux _ a ha (by omega)

theorem yoe_endpoints : ∀ k : Fin 400,
    365 * (k : Int) ≤ fAcc (startI (k : Int)) ∧
    fAcc (startI (k : Int) + maxDoyI (k : Int)) ≤ 365 * (k : Int) + 364 ∧
    startI (k : Int) + maxDoyI (k : Int) ≤ 146096 ∧
    ((k : Int) < 399 → startI ((k : Int) + 1) = startI (k : Int) + maxDoyI (k : Int) + 1) := by
  decide

theorem startI_nonneg (y : Int) (h : 0 ≤ y) : 0 ≤ startI y := by
  unfold startI
  omega

/-- The magic-formula step: for a day-of-era written as a year-of-era start
plus an in-range day-of-year, the accumulator recovers the year-of-era. -/
theorem magic_exact (yoe doy : Int) (h1 : 0 ≤ yoe) (h2 : yoe ≤ 399)
    (h3 : 0 ≤ doy) (h4 : doy ≤ maxDoyI yoe) :
    fAcc (startI yoe + doy) / 365 = yoe ∧ startI yoe + doy ≤ 146096 := by
  have hk : ((⟨yoe.toNat, by omega⟩ : Fin 400) : Int) = yoe := by
    simp
    omega
  obtain ⟨e1, e2, e3, _⟩ := yoe_endpoints ⟨yoe.toNat, by omega⟩
  rw [hk] at e1 e2 e3
  have hs0 : 0 ≤ startI yoe := startI_nonneg yoe h1
  have m1 : fAcc (startI yoe) ≤ fAcc (startI yoe + doy) :=
    fAcc_mono _ _ hs0 (by omega) (by omega)
  have m2 : fAcc (startI yoe + doy) ≤ fAcc (startI yoe + maxDoyI yoe) :=
    fAcc_mono _ _ (by omega) (by omega) (by omega)
  refine ⟨?_, by omega⟩
  have b1 : 365 * yoe ≤ fAcc (startI yoe + doy) := le_trans e1 m1
  have b2 : fAcc (startI yoe + doy) ≤ 365 * yoe + 364 := le_trans m2 e2
  omega

/-- Interval coverage: every day-of-era lies in the range of some year-of-era. -/
theorem cover (n : Nat) (hn : (n : Int) ≤ 146096) :
    ∃ k : Fin 400, startI (k : Int) ≤ (n : Int) ∧
      (n : Int) ≤ startI (k : Int) + maxDoyI (k : Int) := by
  induction n with
  | zero =>
    refine ⟨⟨0, by omega⟩, ?_, ?_⟩ <;> simp [startI, maxDoyI]
  | succ p ih =>
    obtain ⟨k, hk1, hk2⟩ := ih (by push_cast at hn ⊢; omega)
    by_cases h : ((p : Int) + 1) ≤ startI (k : Int) + maxDoyI (k : Int)
    · exact ⟨k, by push_cast; omega, by push_cast; omega⟩
    · have hlt : (k : Int) < 399 := by
        by_contra hge
        have hk399 : (k : Int) = 399 := by
          have := k.isLt
          omega
        obtain ⟨_, _, e3, _⟩ := yoe_endpoints k
        have : startI (k : Int) + maxDoyI (k : Int) = 146096 := by
          rw [hk399]
          decide
        push_cast at hn
        omega
      obtain ⟨_, _, _, e4⟩ := yoe_endpoints k
      have hnext := e4 hlt
      have hkv : k.val < 399 := by
        have := k.isLt
        omega
      refine ⟨⟨k.val + 1, by omega⟩, ?_, ?_⟩
      · have : ((⟨k.val + 1, by omega⟩ : Fin 400) : Int) = (k : Int) + 1 := by
          simp
        rw [this, hnext]
        push_cast
        omega
      · have h5 : ((⟨k.val + 1, by omega⟩ : Fin 400) : Int) = (k : Int) + 1 := by
          simp
        rw [h5]
        have hb := maxDoyI_bounds ((k : Int) + 1)
        rw [hnext]
        push_cast
        omega

/-- Specification of the recovered year-of-era for an arbitrary day-of-era. -/
theorem yoe_spec (doe : Int) (h1 : 0 ≤ doe) (h2 : doe ≤ 146096) :
    0 ≤ fAcc doe / 365 ∧ fAcc doe / 365 ≤ 399 ∧
    startI (fAcc doe / 365) ≤ doe ∧ doe ≤ startI (fAcc doe / 365) + 365 := by
  obtain ⟨k, hk1, hk2⟩ := cover doe.toNat (by omega)
  have hcast : ((doe.toNat : Nat) : Int) = doe := by omega
  rw [hcast] at hk1 hk2
  obtain ⟨e1, e2, e3, _⟩ := yoe_endpoints k
  have hs0 : 0 ≤ startI (k : Int) := startI_nonneg _ (by positivity)
  have m1 : fAcc (startI (k : Int)) ≤ fAcc doe := fAcc_mono _ _ hs0 hk1 (by omega)
  have m2 : fAcc doe ≤ fAcc (startI (k : Int) + maxDoyI (k : Int)) :=
    fAcc_mono _ _ (by omega) hk2 (by omega)
  have hb := maxDoyI_bounds (k : Int)
  have heq : fAcc doe / 365 = (k : Int) := by omega
  rw [heq]
  have hkb := k.isLt
  refine ⟨by positivity, by exact_mod_cast by omega, hk1, by omega⟩

theorem days_civil_inv (z : Int) :
    daysFromCivil (yearOf z) (monthOf z) (domOf z) = z := by
  have hdoe1 : 0 ≤ doeOf z := by unfold doeOf eraOf; omega
  have hdoe2 : doeOf z ≤ 146096 := by unfold doeOf eraOf; omega
  obtain ⟨hy1, hy2, hs1, hs2⟩ := yoe_spec (doeOf z) hdoe1 hdoe2
  have hy0 : yoeOf z = fAcc (doeOf z) / 365 := rfl
  rw [← hy0] at hy1 hy2 hs1 hs2
  have hdoy1 : 0 ≤ doyOf z := by unfold doyOf; omega
  have hdoy2 : doyOf z ≤ 365 := by unfold doyOf; omega
  have hmp1 : 0 ≤ mpOf z := by unfold mpOf; omega
  have hmp2 : mpOf z ≤ 11 := by unfold mpOf; omega
  have hdoydef : doyOf z = doeOf z - startI (yoeOf z) := rfl
  have hdomdef : domOf z = doyOf z - (153 * mpOf z + 2) / 5 + 1 := rfl
  have hdoedef : z + 719468 = eraOf z * 146097 + doeOf z := by unfold doeOf; ring
  unfold daysFromCivil
  dsimp only
  by_cases hm : mpOf z < 10
  · have hmon : monthOf z = mpOf z + 3 := by unfold monthOf; rw [if_pos hm]
    rw [if_neg (by omega : ¬ monthOf z ≤ 2), if_pos (by omega : (2:Int) < monthOf z)]
    have hyear : yearOf z = yoeOf z + eraOf z * 400 := by
      unfold yearOf
      rw [if_neg (by omega : ¬ monthOf z ≤ 2)]
      ring
    rw [hmon, hyear]
    rw [show yoeOf z + eraOf z * 400 - 0 = yoeOf z + eraOf z * 400 from by ring]
    rw [show mpOf z + 3 + (-3 : Int) = mpOf z from by ring]
    rw [show (yoeOf z + eraOf z * 400) / 400 = eraOf z from by omega]
    rw [show yoeOf z + eraOf z * 400 - eraOf z * 400 = yoeOf z from by ring]
    rw [show (153 * mpOf z + 2) / 5 + domOf z - 1 = doyOf z from by rw [hdomdef]; ring]
    rw [show startI (yoeOf z) + doyOf z = doeOf z from by rw [hdoydef]; ring]
    omega
  · have hmon : monthOf z = mpOf z - 9 := by
      unfold monthOf
      rw [if_neg hm]
      ring
    rw [if_pos (by omega : monthOf z ≤ 2), if_neg (by omega : ¬ (2:Int) < monthOf z)]
    have hyear : yearOf z = yoeOf z + eraOf z * 400 + 1 := by
      unfold yearOf
      rw [if_pos (by omega : monthOf z ≤ 2)]
    rw [hmon, hyear]
    rw [show yoeOf z + eraOf z * 400 + 1 - 1 = yoeOf z + eraOf z * 400 from by ring]
    rw [show mpOf z - 9 + (9 : Int) = mpOf z from by ring]
    rw [show (yoeOf z + eraOf z * 400) / 400 = eraOf z from by omega]
    rw [show yoeOf z + eraOf z * 400 - eraOf z * 400 = yoeOf z from by ring]
    rw [show (153 * mpOf z + 2) / 5 + domOf z - 1 = doyOf z from by rw [hdomdef]; ring]
    rw [show startI (yoeOf z) + doyOf z = doeOf z from by rw [hdoydef]; ring]
    omega

theorem mp_dom_rec (mp d : Int) (h3 : 1 ≤ d)
    (h4 : d ≤ 30 ∨ (d ≤ 31 ∧ (mp = 0 ∨ mp = 2 ∨ mp = 4 ∨ mp = 5 ∨ mp = 7 ∨ mp = 9 ∨ mp = 10))) :
    (5 * ((153 * mp + 2) / 5 + d - 1) + 2) / 153 = mp := by
  omega

theorem daysFromCivil_split_lo (y m d : Int) (hm : m ≤ 2) :
    daysFromCivil y m d + 719468 =
      ((y - 1) / 400) * 146097 +
        (startI (y - 1 - (y - 1) / 400 * 400) + ((153 * (m + 9) + 2) / 5 + d - 1)) := by
  unfold daysFromCivil
  dsimp only
  rw [if_pos hm, if_neg (by omega : ¬ (2:Int) < m)]
  ring

theorem daysFromCivil_split_hi (y m d : Int) (hm : 2 < m) :
    daysFromCivil y m d + 719468 =
      (y / 400) * 146097 +
        (startI (y - y / 400 * 400) + ((153 * (m - 3) + 2) / 5 + d - 1)) := by
  unfold daysFromCivil
  dsimp only
  rw [if_neg (by omega : ¬ m ≤ 2), if_pos hm]
  rw [sub_zero, show m + (-3 : Int) = m - 3 from by ring]
  ring

theorem civil_days_inv (y m d : Int) (hm1 : 1 ≤ m) (hm2 : m ≤ 12)
    (hd1 : 1 ≤ d) (hd2 : d ≤ daysInMonth y m) :
    civilFromDays (daysFromCivil y m d) = ⟨y, m, d⟩ := by
  by_cases hm : m ≤ 2
  · have key := daysFromCivil_split_lo y m d hm
    generalize hE : (y - 1) / 400 = era0 at key
    generalize hY : y - 1 - era0 * 400 = yoe0 at key
    generalize hD : (153 * (m + 9) + 2) / 5 + d - 1 = doy0 at key
    have hyb1 : 0 ≤ yoe0 := by omega
    have hyb2 : yoe0 ≤ 399 := by omega
    have hd31 : d ≤ 31 := by
      unfold daysInMonth at hd2
      split_ifs at hd2 <;> omega
    have hdor : m = 1 ∨ (m = 2 ∧ d ≤ 29) := by
      by_cases hm2c : m = 2
      · refine Or.inr ⟨hm2c, ?_⟩
        unfold daysInMonth at hd2
        rw [if_pos hm2c] at hd2
        split_ifs at hd2 <;> omega
      · left
        omega
    have hdmax : doy0 ≤ maxDoyI yoe0 := by
      have hbnd := maxDoyI_bounds yoe0
      by_cases hm2c : m = 2
      · subst hm2c
        unfold daysInMonth at hd2
        rw [if_pos rfl] at hd2
        by_cases hleap : (y % 4 = 0 ∧ y % 100 ≠ 0) ∨ y % 400 = 0
        · rw [if_pos hleap] at hd2
          have hcond : ((yoe0 + 1) % 4 = 0 ∧ (yoe0 + 1) % 100 ≠ 0) ∨ yoe0 = 399 := by
            omega
          unfold maxDoyI
          rw [if_pos hcond]
          omega
        · rw [if_neg hleap] at hd2
          omega
      · have hm1c : m = 1 := by omega
        subst hm1c
        omega
    have hd0 : 0 ≤ doy0 := by omega
    obtain ⟨hrec, hdoemax⟩ := magic_exact yoe0 doy0 hyb1 hyb2 hd0 hdmax
    have hstart0 : 0 ≤ startI yoe0 := startI_nonneg _ hyb1
    have hera : eraOf (daysFromCivil y m d) = era0 := by
      unfold eraOf
      omega
    have hdoe : doeOf (daysFromCivil y m d) = startI yoe0 + doy0 := by
      unfold doeOf
      rw [hera]
      omega
    have hyoe : yoeOf (daysFromCivil y m d) = yoe0 := by
      unfold yoeOf
      rw [hdoe]
      exact hrec
    have hdoy : doyOf (daysFromCivil y m d) = doy0 := by
      unfold doyOf
      rw [hdoe, hyoe]
      ring
    have hmp : mpOf (daysFromCivil y m d) = m + 9 := by
      unfold mpOf
      rw [hdoy]
      omega
    have hdom : domOf (daysFromCivil y m d) = d := by
      unfold domOf
      rw [hdoy, hmp]
      omega
    have hmon : monthOf (daysFromCivil y m d) = m := by
      unfold monthOf
      rw [hmp]
      rw [if_neg (by omega : ¬ m + 9 < 10)]
      ring
    have hyear : yearOf (daysFromCivil y m d) = y := by
      unfold yearOf
      rw [hyoe, hera, hmon]
      rw [if_pos hm]
      omega
    unfold civilFromDays
    rw [hyear, hmon, hdom]
  · have hmg : 2 < m := by omega
    have key := daysFromCivil_split_hi y m d hmg
    generalize hE : y / 400 = era0 at key
    generalize hY : y - era0 * 400 = yoe0 at key
    generalize hD : (153 * (m - 3) + 2) / 5 + d - 1 = doy0 at key
    have hyb1 : 0 ≤ yoe0 := by omega
    have hyb2 : yoe0 ≤ 399 := by omega
    have hd31 : d ≤ 31 := by
      unfold daysInMonth at hd2
      split_ifs at hd2 <;> omega
    have hdmax : doy0 ≤ maxDoyI yoe0 := by
      have hbnd := maxDoyI_bounds yoe0
      omega
    have hd0 : 0 ≤ doy0 := by omega
    obtain ⟨hrec, hdoemax⟩ := magic_exact yoe0 doy0 hyb1 hyb2 hd0 hdmax
    have hstart0 : 0 ≤ startI yoe0 := startI_nonneg _ hyb1
    have hera : eraOf (daysFromCivil y m d) = era0 := by
      unfold eraOf
      omega
    have hdoe : doeOf (daysFromCivil y m d) = startI yoe0 + doy0 := by
      unfold doeOf
      rw [hera]
      omega
    have hyoe : yoeOf (daysFromCivil y m d) = yoe0 := by
      unfold yoeOf
      rw [hdoe]
      exact hrec
    have hdoy : doyOf (daysFromCivil y m d) = doy0 := by
      unfold doyOf
      rw [hdoe, hyoe]
      ring
    have hdisj : d ≤ 30 ∨ (d ≤ 31 ∧ (m - 3 = 0 ∨ m - 3 = 2 ∨ m - 3 = 4 ∨ m - 3 = 5 ∨
        m - 3 = 7 ∨ m - 3 = 9 ∨ m - 3 = 10)) := by
      unfold daysInMonth at hd2
      split_ifs at hd2 <;> omega
    have hmp : mpOf (daysFromCivil y m d) = m - 3 := by
      unfold mpOf
      rw [hdoy, ← hD]
      exact mp_dom_rec (m - 3) d hd1 hdisj
    have hdom : domOf (daysFromCivil y m d) = d := by
      unfold domOf
      rw [hdoy, hmp]
      omega
    have hmon : monthOf (daysFromCivil y m d) = m := by
      unfold monthOf
      rw [hmp]
      rw [if_pos (by omega : m - 3 < 10)]
      ring
    have hyear : yearOf (daysFromCivil y m d) = y := by
      unfold yearOf
      rw [hyoe, hera, hmon]
      rw [if_neg hm]
      omega
    unfold civilFromDays
    rw [hyear, hmon, hdom]

/-- Month range of the civil_from_days output. -/
theorem civil_month_range (z : Int) : 1 ≤ (civilFromDays z).m ∧ (civilFromDays z).m ≤ 12 := by
  show 1 ≤ monthOf z ∧ monthOf z ≤ 12
  have hdoe1 : 0 ≤ doeOf z := by unfold doeOf eraOf; omega
  have hdoe2 : doeOf z ≤ 146096 := by unfold doeOf eraOf; omega
  obtain ⟨hy1, hy2, hs1, hs2⟩ := yoe_spec (doeOf z) hdoe1 hdoe2
  have hy0 : yoeOf z = fAcc (doeOf z) / 365 := rfl
  rw [← hy0] at hy1 hy2 hs1 hs2
  have hdoy1 : 0 ≤ doyOf z := by unfold doyOf; omega
  have hdoy2 : doyOf z ≤ 365 := by unfold doyOf; omega
  have hmp1 : 0 ≤ mpOf z := by unfold mpOf; omega
  have hmp2 : mpOf z ≤ 11 := by unfold mpOf; omega
  unfold monthOf
  split_ifs <;> omega

/-- days_from_civil is linear in the day argument. -/
theorem daysFromCivil_day (y m d : Int) :
    daysFromCivil y m 1 + (d - 1) = daysFromCivil y m d := by
  unfold daysFromCivil
  dsimp only
  ring

/-- Composing the decomposition gives back the instant. -/
theorem mktime_gmtime (t : Int) : mktime (gmtime t) = t := by
  obtain ⟨hm1, hm2⟩ := civil_month_range (t / 86400)
  unfold mktime gmtime
  dsimp only
  rw [show ((civilFromDays (t / 86400)).m - 1) / 12 = 0 from by omega,
      show ((civilFromDays (t / 86400)).m - 1) % 12 = (civilFromDays (t / 86400)).m - 1 from by
        omega]
  rw [show (1900 : Int) + ((civilFromDays (t / 86400)).y - 1900) + 0 =
      (civilFromDays (t / 86400)).y from by ring]
  rw [show (civilFromDays (t / 86400)).m - 1 + 1 = (civilFromDays (t / 86400)).m from by ring]
  rw [daysFromCivil_day]
  rw [show daysFromCivil (civilFromDays (t / 86400)).y (civilFromDays (t / 86400)).m
      (civilFromDays (t / 86400)).d = t / 86400 from days_civil_inv (t / 86400)]
  omega

/-- Decomposing a composed canonical broken-down time gives it back, with the
weekday computed from the day number. -/
theorem gmtime_mktime (tm : Tm) (hmon1 : 0 ≤ tm.tm_mon) (hmon2 : tm.tm_mon ≤ 11)
    (hd1 : 1 ≤ tm.tm_mday)
    (hd2 : tm.tm_mday ≤ daysInMonth (1900 + tm.tm_year) (tm.tm_mon + 1))
    (hh1 : 0 ≤ tm.tm_hour) (hh2 : tm.tm_hour ≤ 23)
    (hmi1 : 0 ≤ tm.tm_min) (hmi2 : tm.tm_min ≤ 59)
    (hs1 : 0 ≤ tm.tm_sec) (hs2 : tm.tm_sec ≤ 59) :
    gmtime (mktime tm) = ⟨tm.tm_year, tm.tm_mon, tm.tm_mday,
      (daysFromCivil (1900 + tm.tm_year) (tm.tm_mon + 1) tm.tm_mday + 4) % 7,
      tm.tm_hour, tm.tm_min, tm.tm_sec⟩ := by
  have hmk : mktime tm = 86400 * daysFromCivil (1900 + tm.tm_year) (tm.tm_mon + 1) tm.tm_mday
      + (3600 * tm.tm_hour + 60 * tm.tm_min + tm.tm_sec) := by
    unfold mktime
    rw [show tm.tm_mon / 12 = 0 from by omega, show tm.tm_mon % 12 = tm.tm_mon from by omega]
    rw [show (1900 : Int) + tm.tm_year + 0 = 1900 + tm.tm_year from by ring]
    rw [daysFromCivil_day]
    ring
  have hdays : mktime tm / 86400 = daysFromCivil (1900 + tm.tm_year) (tm.tm_mon + 1) tm.tm_mday := by
    rw [hmk]
    omega
  have hsod : mktime tm % 86400 = 3600 * tm.tm_hour + 60 * tm.tm_min + tm.tm_sec := by
    rw [hmk]
    omega
  have hciv : civilFromDays (daysFromCivil (1900 + tm.tm_year) (tm.tm_mon + 1) tm.tm_mday) =
      ⟨1900 + tm.tm_year, tm.tm_mon + 1, tm.tm_mday⟩ :=
    civil_days_inv _ _ _ (by omega) (by omega) hd1 hd2
  unfold gmtime
  rw [hdays, hsod, hciv]
  dsimp only
  rw [Tm.mk.injEq]
  refine ⟨by ring, by ring, rfl, rfl, by omega, by omega, by omega⟩

/-- Claim C2 (code evaluation): at the raw timestamp 2208988800 (exactly
1970-01-01T00:00:00Z) with timezone 0, ntp_apply_timezone returns the record
(year 70, month 0, day 1, weekday 4, 00:00:00) because it copies tm_year
(years since 1900) and tm_mon (0-based) unadjusted, while the proleptic
Gregorian decomposition mandated by the spec is (1970, 1, 1, Thursday):
the record produced by the code does not reconstruct to the instant. -/
theorem claim_C2_tm_fields_copied_unadjusted :
    ntp_apply_timezone 2208988800 0 = ⟨70, 0, 1, 4, 0, 0, 0⟩ ∧
    timestampToWallClock 2208988800 0 = ⟨1970, 1, 1, 4, 0, 0, 0⟩ ∧
    ntp_apply_timezone 2208988800 0 ≠ timestampToWallClock 2208988800 0 := by decide

/-- Claim C8 (counterexample): for the December record (2023-12-01 00:00)
and delta 1 hour, shifting by 1 and then by -1 does not restore the record
even ignoring the weekday: the year field becomes 2024 and the month field
0, because the record fields are reinterpreted as tm fields (month 12 is
normalized into January of the next tm year) on every pass. -/
theorem claim_C8_counterexample :
    ¬ ((rtc_add_hours (rtc_add_hours ⟨2023, 12, 1, 5, 0, 0, 0⟩ 1) (-1)).year = 2023 ∧
       (rtc_add_hours (rtc_add_hours ⟨2023, 12, 1, 5, 0, 0, 0⟩ 1) (-1)).month = 12 ∧
       (rtc_add_hours (rtc_add_hours ⟨2023, 12, 1, 5, 0, 0, 0⟩ 1) (-1)).day = 1 ∧
       (rtc_add_hours (rtc_add_hours ⟨2023, 12, 1, 5, 0, 0, 0⟩ 1) (-1)).hour = 0 ∧
       (rtc_add_hours (rtc_add_hours ⟨2023, 12, 1, 5, 0, 0, 0⟩ 1) (-1)).min = 0 ∧
       (rtc_add_hours (rtc_add_hours ⟨2023, 12, 1, 5, 0, 0, 0⟩ 1) (-1)).sec = 0) := by
  decide

/-- Claim C8 (amended): shifting a wall-clock record by d hours and then by
-d hours restores every field except the recomputed weekday, provided the
record is canonical under the reinterpretation that rtc_add_hours applies to
it (its fields are fed to mktime unadjusted, so the month field must lie in
0..11 and the day must exist in month month+1 of year 1900+year; records
with month 12, such as any genuine December datetime_t, are normalized and
not restored). -/
theorem claim_C8_shift_involution (w : Datetime) (d : Int)
    (hm1 : 0 ≤ w.month) (hm2 : w.month ≤ 11)
    (hd1 : 1 ≤ w.day) (hd2 : w.day ≤ daysInMonth (1900 + w.year) (w.month + 1))
    (hh1 : 0 ≤ w.hour) (hh2 : w.hour ≤ 23)
    (hmi1 : 0 ≤ w.min) (hmi2 : w.min ≤ 59)
    (hs1 : 0 ≤ w.sec) (hs2 : w.sec ≤ 59) :
    (rtc_add_hours (rtc_add_hours w d) (-d)).year = w.year ∧
    (rtc_add_hours (rtc_add_hours w d) (-d)).month = w.month ∧
    (rtc_add_hours (rtc_add_hours w d) (-d)).day = w.day ∧
    (rtc_add_hours (rtc_add_hours w d) (-d)).hour = w.hour ∧
    (rtc_add_hours (rtc_add_hours w d) (-d)).min = w.min ∧
    (rtc_add_hours (rtc_add_hours w d) (-d)).sec = w.sec := by
  have e2 : rtc_add_hours (rtc_add_hours w d) (-d) =
      dtOfTm (gmtime (mktime (gmtime (mktime (tmOfDt w) + 3600 * d)) + 3600 * (-d))) := rfl
  rw [e2, mktime_gmtime]
  rw [show mktime (tmOfDt w) + 3600 * d + 3600 * (-d) = mktime (tmOfDt w) from by ring]
  have hg := gmtime_mktime (tmOfDt w) hm1 hm2 hd1 hd2 hh1 hh2 hmi1 hmi2 hs1 hs2
  rw [hg]
  exact ⟨rfl, rfl, rfl, rfl, rfl, rfl⟩

/-- Witness for the amended claim C8 at the record (year field 123, month
field 5, day 17, 12:30:15) and delta 7. -/
theorem claim_C8_shift_involution_witness :
    (rtc_add_hours (rtc_add_hours ⟨123, 5, 17, 3, 12, 30, 15⟩ 7) (-7)).year = 123 ∧
    (rtc_add_hours (rtc_add_hours ⟨123, 5, 17, 3, 12, 30, 15⟩ 7) (-7)).month = 5 ∧
    (rtc_add_hours (rtc_add_hours ⟨123, 5, 17, 3, 12, 30, 15⟩ 7) (-7)).day = 17 ∧
    (rtc_add_hours (rtc_add_hours ⟨123, 5, 17, 3, 12, 30, 15⟩ 7) (-7)).hour = 12 ∧
    (rtc_add_hours (rtc_add_hours ⟨123, 5, 17, 3, 12, 30, 15⟩ 7) (-7)).min = 30 ∧
    (rtc_add_hours (rtc_add_hours ⟨123, 5, 17, 3, 12, 30, 15⟩ 7) (-7)).sec = 15 :=
  claim_C8_shift_involution ⟨123, 5, 17, 3, 12, 30, 15⟩ 7 (by decide) (by decide)
    (by decide) (by decide) (by decide) (by decide) (by decide) (by decide)
    (by decide) (by decide)

/-- Claim C5 (code evaluation): when pbuf_alloc fails, ntp_request reaches
undefined behavior (the payload of a null pbuf is dereferenced): no local
resource error is signalled and no packet is sent; the failure branch
claimed by the spec does not exist in the code. -/
theorem claim_C5_alloc_failure_crashes (server : Option Nat) :
    ntp_request false server = none := rfl

/-- Claim C9: whenever the packet buffer allocation succeeds, ntp_request
sends exactly one packet, addressed to the server at port 123, whose
payload is 48 bytes, zero everywhere except byte 0 which is 0x1b. -/
theorem claim_C9_request_contents (allocOk : Bool) (server : Option Nat)
    (h : allocOk = true) :
    ∃ pkt : SentPacket, ntp_request allocOk server = some [pkt] ∧
      pkt.payload.length = 48 ∧
      pkt.payload.getD 0 0 = 0x1b ∧
      (∀ i : Nat, 1 ≤ i → i < 48 → pkt.payload.getD i 0 = 0) ∧
      pkt.dest = server ∧ pkt.destPort = 123 := by
  subst h
  refine ⟨⟨server, NTP_PORT, (List.replicate NTP_PACKET_LEN 0).set 0 0x1b⟩, rfl, ?_, ?_, ?_,
    rfl, rfl⟩
  · simp [NTP_PACKET_LEN]
  · rfl
  · intro i h1 h2
    have hne : (0 : Nat) ≠ i := by omega
    dsimp only
    rw [List.getD_eq_getElem?_getD, List.getElem?_set_ne hne]
    rw [List.getElem?_replicate, if_pos (by unfold NTP_PACKET_LEN; omega)]
    rfl

/-- Witness for claim C9 with a successful allocation and server address 5. -/
theorem claim_C9_request_contents_witness :
    ∃ pkt : SentPacket, ntp_request true (some 5) = some [pkt] ∧
      pkt.payload.length = 48 ∧
      pkt.payload.getD 0 0 = 0x1b ∧
      (∀ i : Nat, 1 ≤ i → i < 48 → pkt.payload.getD i 0 = 0) ∧
      pkt.dest = some 5 ∧ pkt.destPort = 123 :=
  claim_C9_request_contents true (some 5) rfl

/-- The zeroed initial state satisfies the invariant. -/
theorem inv_init : SessionInv initState := by
  unfold SessionInv initState
  refine ⟨?_, ?_, ?_, ?_, ?_⟩ <;> simp

/-- Sending the request preserves the invariant, given the state of the
session at the two call sites of ntp_request. -/
theorem inv_sendRequest (u s2 : ClockState)
    (hq : u.activeQuery = true) (hr : u.resolved = true) (hsrv : u.server ≠ none)
    (hp : u.dnsPending = false) (hc : u.connecting = false)
    (h2 : ∀ p : Nat, u.socket = some (some p) → p < u.nextPort ∧ p ∉ u.prevPorts)
    (h3 : ∀ q ∈ u.prevPorts, q < u.nextPort)
    (heq : sendRequest u = some s2) : SessionInv s2 := by
  unfold sendRequest at heq
  cases hsock : u.socket with
  | none =>
    rw [hsock] at heq
    cases heq
  | some inner =>
    cases inner with
    | some p =>
      rw [hsock] at heq
      have hs2 : s2 = u := (Option.some.inj heq).symm
      subst hs2
      refine ⟨?_, ?_, h3, ?_, ?_⟩
      · intro hpend
        rw [hp] at hpend
        cases hpend
      · intro p2 hp2
        exact ⟨hq, hr, hsrv, (h2 p2 hp2).1, (h2 p2 hp2).2⟩
      · intro hcon
        rw [hc] at hcon
        cases hcon
      · intro hq2
        rw [hq] at hq2
        cases hq2
    | none =>
      rw [hsock] at heq
      have hs2 : s2 = { u with socket := some (some u.nextPort), nextPort := u.nextPort + 1 } :=
        (Option.some.inj heq).symm
      subst hs2
      refine ⟨?_, ?_, ?_, ?_, ?_⟩
      · intro hpend
        rw [hp] at hpend
        cases hpend
      · intro p2 hp2
        dsimp only at hp2
        have hpv : p2 = u.nextPort := by
          have := Option.some.inj (Option.some.inj hp2)
          omega
        subst hpv
        refine ⟨hq, hr, hsrv, by dsimp only; omega, ?_⟩
        dsimp only
        intro hmem
        exact absurd (h3 _ hmem) (by omega)
      · intro q hmem
        dsimp only at hmem ⊢
        exact Nat.lt_succ_of_lt (h3 q hmem)
      · intro hcon
        rw [hc] at hcon
        cases hcon
      · intro hq2
        rw [hq] at hq2
        cases hq2

/-- The DNS-issuing branch preserves the invariant. -/
theorem inv_dnsPhase (s : ClockState) (dns : DnsOutcome) (s2 : ClockState) (r : Bool)
    (h : SessionInv s) (ha : s.active = true) (hc : s.connecting = false)
    (hq : s.activeQuery = false) (hsock : s.socket ≠ none)
    (heq : dnsPhase s dns = some (s2, r)) : SessionInv s2 := by
  obtain ⟨i1, i2, i3, i4, i5⟩ := h
  have hpend : s.dnsPending = false := by
    cases hpv : s.dnsPending with
    | false => rfl
    | true => exact absurd (i1 hpv).2.2.1 (by rw [hq]; simp)
  have hunbound : ∀ p : Nat, s.socket ≠ some (some p) := by
    intro p hbp
    exact absurd (i2 p hbp).1 (by rw [hq]; simp)
  cases dns with
  | ok a =>
    unfold dnsPhase at heq
    dsimp only at heq
    cases hsr : sendRequest { s with server := some a, activeQuery := true, resolved := true } with
    | none =>
      rw [hsr] at heq
      cases heq
    | some v =>
      rw [hsr] at heq
      dsimp only at heq
      have hv : v = s2 := congrArg Prod.fst (Option.some.inj heq)
      subst hv
      refine inv_sendRequest _ _ rfl rfl (by simp) ?_ ?_ ?_ ?_ hsr
      · exact hpend
      · exact hc
      · intro p hp2
        dsimp only at hp2
        exact absurd hp2 (hunbound p)
      · exact i3
  | inprogress =>
    unfold dnsPhase at heq
    dsimp only at heq
    have hs2 : s2 = { s with activeQuery := true, dnsPending := true, dnsCycle := s.cycleId } :=
      (congrArg Prod.fst (Option.some.inj heq)).symm
    subst hs2
    have hof : s.socket = some none := by
      cases hsv : s.socket with
      | none => exact absurd hsv hsock
      | some inner =>
        cases inner with
        | none => rfl
        | some p => exact absurd hsv (hunbound p)
    refine ⟨?_, ?_, i3, ?_, ?_⟩
    · intro _
      exact ⟨ha, hc, rfl, i5 hq, hof, rfl⟩
    · intro p hp2
      dsimp only at hp2
      rw [hof] at hp2
      cases Option.some.inj hp2
    · intro hcon
      rw [hc] at hcon
      cases hcon
    · intro hq2
      cases hq2
  | err =>
    unfold dnsPhase at heq
    dsimp only at heq
    have hs2 : s2 = { s with activeQuery := false } :=
      (congrArg Prod.fst (Option.some.inj heq)).symm
    subst hs2
    refine ⟨?_, ?_, i3, ?_, ?_⟩
    · intro hpv
      dsimp only at hpv
      rw [hpend] at hpv
      cases hpv
    · intro p hp2
      dsimp only at hp2
      exact absurd hp2 (hunbound p)
    · intro hcon
      rw [hc] at hcon
      cases hcon
    · intro _
      exact i5 hq

/-- The active-query branch preserves the invariant. -/
theorem inv_queryPhase (s : ClockState) (dns : DnsOutcome) (s2 : ClockState) (r : Bool)
    (h : SessionInv s) (ha : s.active = true) (hc : s.connecting = false)
    (hsock : s.socket ≠ none)
    (heq : queryPhase s dns = some (s2, r)) : SessionInv s2 := by
  obtain ⟨i1, i2, i3, i4, i5⟩ := h
  unfold queryPhase at heq
  by_cases hq : s.activeQuery = true
  · rw [if_pos hq] at heq
    by_cases ht : 0 < s.time
    · rw [if_pos ht] at heq
      have hs2 : s2 = { s with active := false, connecting := false } :=
        (congrArg Prod.fst (Option.some.inj heq)).symm
      subst hs2
      refine ⟨?_, ?_, i3, ?_, ?_⟩
      · intro hpv
        dsimp only at hpv
        exact absurd (i1 hpv).2.2.2.1 (by omega)
      · intro p hp2
        dsimp only at hp2
        exact i2 p hp2
      · intro hcon
        cases hcon
      · intro hq2
        dsimp only at hq2
        rw [hq] at hq2
        cases hq2
    · rw [if_neg ht] at heq
      have hs2 : s2 = s := (congrArg Prod.fst (Option.some.inj heq)).symm
      subst hs2
      exact ⟨i1, i2, i3, i4, i5⟩
  · rw [if_neg (by simpa using hq)] at heq
    have hqf : s.activeQuery = false := by
      cases hqv : s.activeQuery with
      | false => rfl
      | true => exact absurd hqv hq
    exact inv_dnsPhase s dns s2 r ⟨i1, i2, i3, i4, i5⟩ ha hc hqf hsock heq

/-- The socket-ensuring step preserves the invariant. -/
theorem inv_socketPhase (s : ClockState) (sockOk : Bool) (dns : DnsOutcome)
    (s2 : ClockState) (r : Bool)
    (h : SessionInv s) (ha : s.active = true) (hc : s.connecting = false)
    (heq : socketPhase s sockOk dns = some (s2, r)) : SessionInv s2 := by
  obtain ⟨i1, i2, i3, i4, i5⟩ := h
  unfold socketPhase at heq
  cases hsock : s.socket with
  | none =>
    rw [hsock] at heq
    dsimp only at heq
    cases hok : sockOk with
    | false =>
      rw [hok, if_neg (by simp : ¬ (false = true))] at heq
      have hs2 : s2 = s := (congrArg Prod.fst (Option.some.inj heq)).symm
      subst hs2
      exact ⟨i1, i2, i3, i4, i5⟩
    | true =>
      rw [hok, if_pos rfl] at heq
      refine inv_queryPhase { s with socket := some none } dns s2 r ⟨?_, ?_, i3, ?_, ?_⟩
        ha hc (by simp) heq
      · intro hpv
        dsimp only at hpv
        have := (i1 hpv).2.2.2.2.1
        rw [hsock] at this
        cases this
      · intro p hp2
        dsimp only at hp2
        cases Option.some.inj hp2
      · intro hcon
        rw [hc] at hcon
        cases hcon
      · intro hq2
        dsimp only at hq2
        exact i5 hq2
  | some inner =>
    rw [hsock] at heq
    dsimp only at heq
    refine inv_queryPhase s dns s2 r ⟨i1, i2, i3, i4, i5⟩ ha hc (by rw [hsock]; simp) heq

/-- Clearing the connecting flag preserves the invariant. -/
theorem inv_clearConnecting (u : ClockState) (h : SessionInv u) :
    SessionInv { u with connecting := false } := by
  obtain ⟨i1, i2, i3, i4, i5⟩ := h
  refine ⟨?_, ?_, i3, ?_, ?_⟩
  · intro hpv
    dsimp only at hpv
    obtain ⟨a, _, b⟩ := i1 hpv
    exact ⟨a, rfl, b⟩
  · intro p hp2
    dsimp only at hp2
    exact i2 p hp2
  · intro hcon
    cases hcon
  · intro hq2
    dsimp only at hq2
    exact i5 hq2

/-- The re-initialisation block preserves the invariant and leaves the
session active. -/
theorem inv_cycleInit (s : ClockState) (h : SessionInv s) :
    SessionInv (cycleInit s) ∧ (cycleInit s).active = true := by
  obtain ⟨i1, i2, i3, i4, i5⟩ := h
  unfold cycleInit
  cases hav : s.active with
  | true =>
    rw [if_pos rfl]
    exact ⟨⟨i1, i2, i3, i4, i5⟩, hav⟩
  | false =>
    rw [if_neg (by simp)]
    have hpend : s.dnsPending = false := by
      cases hpv : s.dnsPending with
      | false => rfl
      | true =>
        have := (i1 hpv).1
        rw [hav] at this
        cases this
    refine ⟨⟨?_, ?_, ?_, ?_, ?_⟩, rfl⟩
    · intro hpv
      dsimp only at hpv
      rw [hpend] at hpv
      cases hpv
    · intro p hp2
      dsimp only at hp2
      cases hp2
    · intro q hmem
      dsimp only at hmem ⊢
      cases hsv : s.socket with
      | none =>
        rw [hsv] at hmem
        exact i3 q hmem
      | some inner =>
        cases inner with
        | none =>
          rw [hsv] at hmem
          exact i3 q hmem
        | some p =>
          rw [hsv] at hmem
          rcases List.mem_cons.mp hmem with hqp | hmem2
          · rw [hqp]
            exact (i2 p hsv).2.2.2.1
          · exact i3 q hmem2
    · intro _
      exact ⟨rfl, rfl, rfl, hpend⟩
    · intro _
      rfl

/-- One poll of checktime preserves the invariant. -/
theorem inv_checktime (s : ClockState) (link : LinkStatus) (sockOk : Bool)
    (dns : DnsOutcome) (s2 : ClockState) (r : Bool)
    (h : SessionInv s) (heq : checktime s link sockOk dns = some (s2, r)) :
    SessionInv s2 := by
  obtain ⟨hI, hA⟩ := inv_cycleInit s h
  unfold checktime at heq
  dsimp only at heq
  by_cases hf : (cycleInit s).connecting = true ∧ linkFailed link = true
  · rw [if_pos hf] at heq
    have hs2 : s2 = { cycleInit s with active := false, connecting := false } :=
      (congrArg Prod.fst (Option.some.inj heq)).symm
    subst hs2
    obtain ⟨j1, j2, j3, j4, j5⟩ := hI
    obtain ⟨k1, k2, k3, k4⟩ := j4 hf.1
    refine ⟨?_, ?_, j3, ?_, ?_⟩
    · intro hpv
      dsimp only at hpv
      rw [k4] at hpv
      cases hpv
    · intro p hp2
      dsimp only at hp2
      rw [k1] at hp2
      cases hp2
    · intro hcon
      cases hcon
    · intro _
      exact k3
  · rw [if_neg hf] at heq
    by_cases hup : (cycleInit s).connecting = true ∧ link = LinkStatus.up
    · rw [if_pos hup] at heq
      have hI2 : SessionInv { cycleInit s with connecting := false } :=
        inv_clearConnecting _ hI
      rw [if_neg (by simp)] at heq
      exact inv_socketPhase _ sockOk dns s2 r hI2 hA rfl heq
    · rw [if_neg hup] at heq
      by_cases hcon : (cycleInit s).connecting = true
      · rw [if_pos hcon] at heq
        have hs2 : s2 = cycleInit s := (congrArg Prod.fst (Option.some.inj heq)).symm
        subst hs2
        exact hI
      · rw [if_neg hcon] at heq
        have hcf : (cycleInit s).connecting = false := by
          cases hcv : (cycleInit s).connecting with
          | false => rfl
          | true => exact absurd hcv hcon
        exact inv_socketPhase _ sockOk dns s2 r hI hA hcf heq

/-- A delivered DNS completion preserves the invariant. -/
theorem inv_ntpcb_dns (s : ClockState) (addr : Option Nat) (s2 : ClockState)
    (h : SessionInv s) (hpend : s.dnsPending = true)
    (heq : ntpcb_dns s addr = some s2) : SessionInv s2 := by
  obtain ⟨i1, i2, i3, i4, i5⟩ := h
  obtain ⟨c1, c2, c3, c4, c5, c6⟩ := i1 hpend
  cases addr with
  | some a =>
    unfold ntpcb_dns at heq
    dsimp only at heq
    refine inv_sendRequest { s with server := some a, dnsPending := false, resolved := true }
      s2 c3 rfl (by simp) rfl c2 ?_ i3 heq
    intro p hp2
    dsimp only at hp2
    rw [c5] at hp2
    cases Option.some.inj hp2
  | none =>
    unfold ntpcb_dns at heq
    dsimp only at heq
    have hs2 : s2 = { s with activeQuery := false, dnsPending := false } :=
      (Option.some.inj heq).symm
    subst hs2
    refine ⟨?_, ?_, i3, ?_, ?_⟩
    · intro hpv
      cases hpv
    · intro p hp2
      dsimp only at hp2
      rw [c5] at hp2
      cases Option.some.inj hp2
    · intro hcv
      dsimp only at hcv
      rw [c2] at hcv
      cases hcv
    · intro _
      exact c4

/-- A delivered datagram preserves the invariant. -/
theorem inv_udpDeliver (s : ClockState) (pkt : Packet)
    (h : SessionInv s) (hb : s.socket = some (some pkt.dstPort)) :
    SessionInv (udpDeliver s pkt) := by
  obtain ⟨i1, i2, i3, i4, i5⟩ := h
  have hrw : udpDeliver s pkt =
      { s with time := (ntpcb_recv s pkt.srcAddr pkt.srcPort pkt.bytes).time } :=
    ntpcb_recv_eq s pkt.srcAddr pkt.srcPort pkt.bytes
  rw [hrw]
  have hq : s.activeQuery = true := (i2 _ hb).1
  refine ⟨?_, ?_, i3, ?_, ?_⟩
  · intro hpv
    dsimp only at hpv
    have := (i1 hpv).2.2.2.2.1
    rw [hb] at this
    cases Option.some.inj this
  · intro p hp2
    dsimp only at hp2
    exact i2 p hp2
  · intro hcv
    dsimp only at hcv
    have := (i4 hcv).1
    rw [hb] at this
    cases this
  · intro hq2
    dsimp only at hq2
    rw [hq] at hq2
    cases hq2

/-- Every reachable state satisfies the invariant. -/
theorem reach_inv (s : ClockState) (h : Reach s) : SessionInv s := by
  induction h with
  | init => exact inv_init
  | poll link sockOk dns _ heq ih => exact inv_checktime _ link sockOk dns _ _ ih heq
  | dnsAnswer addr _ hpend heq ih => exact inv_ntpcb_dns _ addr _ ih hpend heq
  | datagram pkt _ hb ih => exact inv_udpDeliver _ pkt ih hb

/-- Claim C3: completions delivered for a discarded cycle never mutate a
later session.  In every reachable state an outstanding DNS completion
belongs to the current cycle (the code can only reset from a terminal
state, and terminal states are unreachable while a resolution is
outstanding), and the current socket is never bound to a port of a removed
pcb of an earlier cycle, so a datagram addressed to a discarded endpoint is
dropped by the stack instead of being delivered into the new session. -/
theorem claim_C3_no_stale_completion (s : ClockState) (h : Reach s) :
    (s.dnsPending = true → s.dnsCycle = s.cycleId) ∧
    (∀ p : Nat, s.socket = some (some p) → p ∉ s.prevPorts) := by
  obtain ⟨i1, i2, _, _, _⟩ := reach_inv s h
  exact ⟨fun hp => (i1 hp).2.2.2.2.2, fun p hb => (i2 p hb).2.2.2.2⟩

/-- Witness for claim C3: the state after one poll that starts a DNS query
has its outstanding completion tagged with the current cycle. -/
theorem claim_C3_no_stale_completion_witness :
    ((⟨true, false, some none, true, none, 0, 49152, [], 1, true, 1, false⟩ :
        ClockState).dnsPending = true →
      (⟨true, false, some none, true, none, 0, 49152, [], 1, true, 1, false⟩ :
        ClockState).dnsCycle =
      (⟨true, false, some none, true, none, 0, 49152, [], 1, true, 1, false⟩ :
        ClockState).cycleId) ∧
    (∀ p : Nat, (⟨true, false, some none, true, none, 0, 49152, [], 1, true, 1, false⟩ :
        ClockState).socket = some (some p) →
      p ∉ (⟨true, false, some none, true, none, 0, 49152, [], 1, true, 1, false⟩ :
        ClockState).prevPorts) :=
  claim_C3_no_stale_completion _
    (Reach.poll LinkStatus.up true DnsOutcome.inprogress Reach.init
      (show checktime initState LinkStatus.up true DnsOutcome.inprogress =
          some (⟨true, false, some none, true, none, 0, 49152, [], 1, true, 1, false⟩, false)
        from by decide))

/-- Claim C6: the request is sent only after resolution has delivered an
address, and a response can be accepted only after the request was sent.
A bound socket records that ntp_request ran in this cycle (lwIP binds on
the first udp_sendto and the reset removes the pcb), and in every reachable
state a bound socket implies resolution delivered an address this cycle and
the server address is set; datagram delivery (the only path that records a
response) requires the bound socket. -/
theorem claim_C6_resolution_before_request (s : ClockState) (p : Nat) (h : Reach s)
    (hb : s.socket = some (some p)) :
    s.resolved = true ∧ s.server ≠ none ∧ s.activeQuery = true := by
  obtain ⟨_, i2, _, _, _⟩ := reach_inv s h
  exact ⟨(i2 p hb).2.1, (i2 p hb).2.2.1, (i2 p hb).1⟩

/-- Witness for claim C6: the state after a poll whose cached DNS answer
let it send at once is bound, resolved and addressed. -/
theorem claim_C6_resolution_before_request_witness :
    (⟨true, false, some (some 49152), true, some 7, 0, 49153, [], 1, false, 0, true⟩ :
      ClockState).resolved = true ∧
    (⟨true, false, some (some 49152), true, some 7, 0, 49153, [], 1, false, 0, true⟩ :
      ClockState).server ≠ none ∧
    (⟨true, false, some (some 49152), true, some 7, 0, 49153, [], 1, false, 0, true⟩ :
      ClockState).activeQuery = true :=
  claim_C6_resolution_before_request _ 49152
    (Reach.poll LinkStatus.up true (DnsOutcome.ok 7) Reach.init
      (show checktime initState LinkStatus.up true (DnsOutcome.ok 7) =
          some (⟨true, false, some (some 49152), true, some 7, 0, 49153, [], 1, false, 0, true⟩,
            false)
        from by decide)) rfl

/-- dnsPhase always returns false from the poll. -/
theorem dnsPhase_false (x : ClockState) (dns : DnsOutcome) (s2 : ClockState) (r : Bool)
    (heq : dnsPhase x dns = some (s2, r)) : r = false := by
  cases dns with
  | ok a =>
    unfold dnsPhase at heq
    dsimp only at heq
    cases hsr : sendRequest { x with server := some a, activeQuery := true, resolved := true } with
    | none =>
      rw [hsr] at heq
      cases heq
    | some v =>
      rw [hsr] at heq
      dsimp only at heq
      exact (congrArg Prod.snd (Option.some.inj heq)).symm
  | inprogress =>
    unfold dnsPhase at heq
    dsimp only at heq
    exact (congrArg Prod.snd (Option.some.inj heq)).symm
  | err =>
    unfold dnsPhase at heq
    dsimp only at heq
    exact (congrArg Prod.snd (Option.some.inj heq)).symm

/-- A poll segment that returns true is the success branch: it clears the
connectivity flags and leaves the socket exactly as it was. -/
theorem queryPhase_true (x : ClockState) (dns : DnsOutcome) (s2 : ClockState)
    (heq : queryPhase x dns = some (s2, true)) :
    s2.active = false ∧ s2.connecting = false ∧ s2.socket = x.socket := by
  unfold queryPhase at heq
  by_cases hq : x.activeQuery = true
  · rw [if_pos hq] at heq
    by_cases ht : 0 < x.time
    · rw [if_pos ht] at heq
      have hs2 : s2 = { x with active := false, connecting := false } :=
        (congrArg Prod.fst (Option.some.inj heq)).symm
      subst hs2
      exact ⟨rfl, rfl, rfl⟩
    · rw [if_neg ht] at heq
      exact absurd (congrArg Prod.snd (Option.some.inj heq)) (by simp)
  · rw [if_neg (by simpa using hq)] at heq
    exact absurd (dnsPhase_false x dns s2 true heq) (by simp)

/-- Same fact one layer out: through the socket-ensuring step, a true
result leaves a present socket. -/
theorem socketPhase_true (x : ClockState) (sockOk : Bool) (dns : DnsOutcome) (s2 : ClockState)
    (heq : socketPhase x sockOk dns = some (s2, true)) :
    s2.active = false ∧ s2.connecting = false ∧ s2.socket ≠ none := by
  unfold socketPhase at heq
  cases hsock : x.socket with
  | none =>
    rw [hsock] at heq
    dsimp only at heq
    cases hok : sockOk with
    | false =>
      rw [hok, if_neg (by simp : ¬ (false = true))] at heq
      exact absurd (congrArg Prod.snd (Option.some.inj heq)) (by simp)
    | true =>
      rw [hok, if_pos rfl] at heq
      obtain ⟨h1, h2, h3⟩ := queryPhase_true _ dns s2 heq
      refine ⟨h1, h2, ?_⟩
      rw [h3]
      simp
  | some inner =>
    rw [hsock] at heq
    dsimp only at heq
    obtain ⟨h1, h2, h3⟩ := queryPhase_true _ dns s2 heq
    refine ⟨h1, h2, ?_⟩
    rw [h3, hsock]
    simp

/-- Claim C4 (amended): every poll of checktime that returns true (the
Succeeded transition) tears the connectivity layer down (active and
connecting cleared) but does not close the datagram endpoint: the socket is
still present in the returned state; it is removed only by the
re-initialisation block at the start of the next cycle. -/
theorem claim_C4_success_teardown (s : ClockState) (link : LinkStatus) (sockOk : Bool)
    (dns : DnsOutcome) (s2 : ClockState)
    (heq : checktime s link sockOk dns = some (s2, true)) :
    s2.active = false ∧ s2.connecting = false ∧ s2.socket ≠ none := by
  unfold checktime at heq
  dsimp only at heq
  by_cases hf : (cycleInit s).connecting = true ∧ linkFailed link = true
  · rw [if_pos hf] at heq
    exact absurd (congrArg Prod.snd (Option.some.inj heq)) (by simp)
  · rw [if_neg hf] at heq
    by_cases hup : (cycleInit s).connecting = true ∧ link = LinkStatus.up
    · rw [if_pos hup, if_neg (by simp)] at heq
      exact socketPhase_true _ sockOk dns s2 heq
    · rw [if_neg hup] at heq
      by_cases hcon : (cycleInit s).connecting = true
      · rw [if_pos hcon] at heq
        exact absurd (congrArg Prod.snd (Option.some.inj heq)) (by simp)
      · rw [if_neg hcon] at heq
        exact socketPhase_true _ sockOk dns s2 heq

/-- Claim C4 (counterexample): a reachable session holding a recorded
response; the poll that reports success (returns true) clears the
connectivity flags but the state it leaves still holds the bound socket:
the terminal Succeeded transition does not close the datagram endpoint. -/
theorem claim_C4_counterexample :
    Reach (⟨true, false, some (some 49152), true, some 7, 3846963200, 49153, [], 1,
      false, 0, true⟩ : ClockState) ∧
    checktime
      ⟨true, false, some (some 49152), true, some 7, 3846963200, 49153, [], 1,
        false, 0, true⟩ LinkStatus.up true DnsOutcome.inprogress =
      some (⟨false, false, some (some 49152), true, some 7, 3846963200, 49153, [], 1,
        false, 0, true⟩, true) ∧
    (⟨false, false, some (some 49152), true, some 7, 3846963200, 49153, [], 1,
      false, 0, true⟩ : ClockState).socket = some (some 49152) := by
  refine ⟨?_, by decide, by decide⟩
  have h1 : Reach (⟨true, false, some (some 49152), true, some 7, 0, 49153, [], 1,
      false, 0, true⟩ : ClockState) :=
    Reach.poll LinkStatus.up true (DnsOutcome.ok 7) Reach.init
      (show checktime initState LinkStatus.up true (DnsOutcome.ok 7) =
          some (⟨true, false, some (some 49152), true, some 7, 0, 49153, [], 1, false, 0, true⟩,
            false)
        from by decide)
  have h2 := Reach.datagram
    (⟨9, 123, 49152,
      (((List.replicate 48 (0 : Byte)).set 0 0x24).set 1 1).set 40 0xE5 |>.set 41 0x4C⟩ : Packet)
    h1 (by decide)
  rwa [show udpDeliver
      ⟨true, false, some (some 49152), true, some 7, 0, 49153, [], 1, false, 0, true⟩
      (⟨9, 123, 49152,
        (((List.replicate 48 (0 : Byte)).set 0 0x24).set 1 1).set 40 0xE5 |>.set 41 0x4C⟩ :
        Packet) =
      ⟨true, false, some (some 49152), true, some 7, 3846963200, 49153, [], 1, false, 0, true⟩
    from by decide] at h2

/-- Witness for the amended claim C4 at the reachable success state of the
counterexample trace. -/
theorem claim_C4_success_teardown_witness :
    (⟨false, false, some (some 49152), true, some 7, 3846963200, 49153, [], 1,
      false, 0, true⟩ : ClockState).active = false ∧
    (⟨false, false, some (some 49152), true, some 7, 3846963200, 49153, [], 1,
      false, 0, true⟩ : ClockState).connecting = false ∧
    (⟨false, false, some (some 49152), true, some 7, 3846963200, 49153, [], 1,
      false, 0, true⟩ : ClockState).socket ≠ none :=
  claim_C4_success_teardown
    ⟨true, false, some (some 49152), true, some 7, 3846963200, 49153, [], 1, false, 0, true⟩
    LinkStatus.up true DnsOutcome.inprogress
    ⟨false, false, some (some 49152), true, some 7, 3846963200, 49153, [], 1, false, 0, true⟩
    (by decide)

/-- A poll of an active, connected, queryless session with an unbound
socket issues a fresh DNS query and returns false. -/
theorem checktime_retry (u : ClockState) (link : LinkStatus) (sockOk : Bool)
    (ha : u.active = true) (hc : u.connecting = false) (hq : u.activeQuery = false)
    (hs : u.socket = some none) :
    checktime u link sockOk DnsOutcome.inprogress =
      some ({ u with activeQuery := true, dnsPending := true, dnsCycle := u.cycleId }, false) := by
  have hci : cycleInit u = u := by
    unfold cycleInit
    rw [if_pos ha]
  unfold checktime
  dsimp only
  rw [hci]
  rw [if_neg (by simp [hc])]
  rw [if_neg (by simp [hc])]
  rw [if_neg (by simp [hc])]
  unfold socketPhase
  rw [hs]
  dsimp only
  unfold queryPhase
  rw [if_neg (by simp [hq])]
  unfold dnsPhase
  dsimp only
  rw [hs]

/-- Claim C7 (amended): a resolution failure is not terminal for the cycle:
the failing completion merely clears the active-query flag, leaving the
connectivity layer, the socket and the cycle as they were, and the next
poll of the same cycle issues a fresh resolution query and again returns
false (indistinguishable from pending); no Failed(ResolutionError) result
is surfaced and the cycle retries resolution on its own. -/
theorem claim_C7_resolution_failure_retries (s s2 s3 : ClockState) (r : Bool)
    (link : LinkStatus) (sockOk : Bool)
    (hreach : Reach s) (hpend : s.dnsPending = true)
    (hcb : ntpcb_dns s none = some s2)
    (hpoll : checktime s2 link sockOk DnsOutcome.inprogress = some (s3, r)) :
    s2.activeQuery = false ∧ s2.active = true ∧ s2.socket = s.socket ∧
    s2.cycleId = s.cycleId ∧ r = false ∧ s3.dnsPending = true ∧
    s3.cycleId = s.cycleId := by
  obtain ⟨i1, _, _, _, _⟩ := reach_inv s hreach
  obtain ⟨c1, c2, c3, c4, c5, c6⟩ := i1 hpend
  have hs2 : s2 = { s with activeQuery := false, dnsPending := false } := by
    unfold ntpcb_dns at hcb
    dsimp only at hcb
    exact (Option.some.inj hcb).symm
  subst hs2
  have hcomp := checktime_retry { s with activeQuery := false, dnsPending := false }
    link sockOk (by dsimp only; exact c1) (by dsimp only; exact c2) rfl
    (by dsimp only; exact c5)
  rw [hcomp] at hpoll
  have hpair := Option.some.inj hpoll
  have hs3 : s3 = { s with activeQuery := true, dnsPending := true, dnsCycle := s.cycleId } :=
    (congrArg Prod.fst hpair).symm
  have hr : r = false := (congrArg Prod.snd hpair).symm
  subst hs3
  exact ⟨rfl, c1, rfl, rfl, hr, rfl, rfl⟩

/-- Claim C7 (counterexample): concrete reachable trace: a cycle whose
resolution fails (ntpcb_dns with a null address) is not terminated; the
next poll of the same cycle (same cycleId, connectivity still up) starts a
new DNS query and returns false. -/
theorem claim_C7_counterexample :
    Reach (⟨true, false, some none, true, none, 0, 49152, [], 1, true, 1, false⟩ : ClockState) ∧
    ntpcb_dns ⟨true, false, some none, true, none, 0, 49152, [], 1, true, 1, false⟩ none =
      some ⟨true, false, some none, false, none, 0, 49152, [], 1, false, 1, false⟩ ∧
    checktime ⟨true, false, some none, false, none, 0, 49152, [], 1, false, 1, false⟩
      LinkStatus.up true DnsOutcome.inprogress =
      some (⟨true, false, some none, true, none, 0, 49152, [], 1, true, 1, false⟩, false) ∧
    (⟨true, false, some none, true, none, 0, 49152, [], 1, true, 1, false⟩ :
      ClockState).dnsPending = true ∧
    (⟨true, false, some none, true, none, 0, 49152, [], 1, true, 1, false⟩ :
      ClockState).active = true := by
  refine ⟨?_, by decide, by decide, by decide, by decide⟩
  exact Reach.poll LinkStatus.up true DnsOutcome.inprogress Reach.init
    (show checktime initState LinkStatus.up true DnsOutcome.inprogress =
        some (⟨true, false, some none, true, none, 0, 49152, [], 1, true, 1, false⟩, false)
      from by decide)

/-- Witness for the amended claim C7 along the counterexample trace. -/
theorem claim_C7_resolution_failure_retries_witness :
    (⟨true, false, some none, false, none, 0, 49152, [], 1, false, 1, false⟩ :
      ClockState).activeQuery = false ∧
    (⟨true, false, some none, false, none, 0, 49152, [], 1, false, 1, false⟩ :
      ClockState).active = true ∧
    (⟨true, false, some none, false, none, 0, 49152, [], 1, false, 1, false⟩ :
      ClockState).socket =
      (⟨true, false, some none, true, none, 0, 49152, [], 1, true, 1, false⟩ :
        ClockState).socket ∧
    (⟨true, false, some none, false, none, 0, 49152, [], 1, false, 1, false⟩ :
      ClockState).cycleId =
      (⟨true, false, some none, true, none, 0, 49152, [], 1, true, 1, false⟩ :
        ClockState).cycleId ∧
    false = false ∧
    (⟨true, false, some none, true, none, 0, 49152, [], 1, true, 1, false⟩ :
      ClockState).dnsPending = true ∧
    (⟨true, false, some none, true, none, 0, 49152, [], 1, true, 1, false⟩ :
      ClockState).cycleId =
      (⟨true, false, some none, true, none, 0, 49152, [], 1, true, 1, false⟩ :
        ClockState).cycleId :=
  claim_C7_resolution_failure_retries
    ⟨true, false, some none, true, none, 0, 49152, [], 1, true, 1, false⟩
    ⟨true, false, some none, false, none, 0, 49152, [], 1, false, 1, false⟩
    ⟨true, false, some none, true, none, 0, 49152, [], 1, true, 1, false⟩
    false LinkStatus.up true
    (Reach.poll LinkStatus.up true DnsOutcome.inprogress Reach.init
      (show checktime initState LinkStatus.up true DnsOutcome.inprogress =
          some (⟨true, false, some none, true, none, 0, 49152, [], 1, true, 1, false⟩, false)
        from by decide))
    rfl (by decide) (by decide)
